import Mathlib

/-!
Verification of the loopless-FBA construction described by this repository.

The repository consists of two notebooks.  `loopless.ipynb` states the
mathematical construction (irreversibility splitting, binary indicators
`max(ub)·i ≥ v`, the dual-certificate rows `Sᵀx − (1−i)(max(ub)+1) ≤ −1`,
and a combined block system), builds a five-reaction toy model
(metabolites A, B, C; reactions EX_A, DM_C, v1, v2, v3) and reports the
observed solver results (objective 1000.00, and infeasibility after
`v3.lower_bound = 1`).  The builder itself (`construct_loopless_model`)
lives in an external library, so the operational definitions below are
modelled from the specification's §4.1 algorithm, with rational numbers
standing for the reals of the LP data.
-/

namespace LooplessFBA

/-- A reaction of the data model: identifier, bounds, sparse stoichiometry
(metabolite id ↦ signed coefficient; omitted metabolites have coefficient 0),
objective coefficient and the externally supplied boundary flag. -/
structure Reaction where
  id : String
  lower_bound : ℚ
  upper_bound : ℚ
  metabolites : List (String × ℚ)
  objective_coefficient : ℚ
  is_boundary : Bool
deriving DecidableEq

instance : Inhabited Reaction := ⟨⟨"", 0, 0, [], 0, false⟩⟩

/-- A model: ordered metabolites and ordered reactions, implicitly defining
the stoichiometric matrix S (rows = metabolites, columns = reactions). -/
structure Model where
  metabolites : List String
  reactions : List Reaction
deriving DecidableEq

/-- The reaction at position `j` of the model's ordered reaction list. -/
def reactionAt (m : Model) (j : Nat) : Reaction :=
  m.reactions.getD j default

/-- Sparse stoichiometric lookup: the coefficient of metabolite `met` in
reaction `r`, 0 when absent. -/
def stoich (r : Reaction) (met : String) : ℚ :=
  ((r.metabolites.find? (fun q => q.1 == met)).map Prod.snd).getD 0

/-- Modelled from the spec: step 1 of `build` splits an internal reaction
exactly when its lower bound is negative; this flag records whether a
reverse variable is created for the reaction. -/
def hasReverse (r : Reaction) : Bool :=
  !r.is_boundary && decide (r.lower_bound < 0)

/-- Lower bound of the forward variable after irreversibility
normalization: 0 for a split reaction, the original lower bound otherwise. -/
def fwdLb (r : Reaction) : ℚ :=
  if hasReverse r then 0 else r.lower_bound

/-- One step of the big-M fold: an internal reaction contributes the upper
bounds of its transformed variables (`ub` and, when split, `−lb`); boundary
reactions contribute nothing. -/
def bigMStep (r : Reaction) (acc : ℚ) : ℚ :=
  if r.is_boundary then acc
  else if r.lower_bound < 0 then max (max r.upper_bound (-r.lower_bound)) acc
  else max r.upper_bound acc

/-- Modelled from the spec: the big-M constant `U = max(ub)` over all
transformed internal reactions, computed once from the model's bounds.
The fold starts at 0; every internal reaction contributes a nonnegative
upper bound (when `lb < 0` the reverse bound `−lb` is positive, otherwise
`ub ≥ lb ≥ 0`), so on a model with at least one internal reaction this is
exactly the maximum transformed upper bound. -/
def bigM (m : Model) : ℚ :=
  m.reactions.foldr bigMStep 0

/-- A transformed (derived) variable of the loopless formulation: the index
of its originating reaction, its direction, and its bounds. -/
structure TransReaction where
  origIdx : Nat
  isReverse : Bool
  lb : ℚ
  ub : ℚ
deriving DecidableEq

/-- Modelled from the spec: irreversibility normalization of a single
reaction.  A boundary reaction is carried over unmodified; an internal
reaction with `lower_bound < 0` is split into forward `[0, ub]` and reverse
`[0, −lb]` variables; an internal reaction with `lower_bound ≥ 0` passes
through as a single forward variable with its original bounds. -/
def splitReaction (j : Nat) (r : Reaction) : List TransReaction :=
  if r.is_boundary then [⟨j, false, r.lower_bound, r.upper_bound⟩]
  else if r.lower_bound < 0 then
    [⟨j, false, 0, r.upper_bound⟩, ⟨j, true, 0, -r.lower_bound⟩]
  else [⟨j, false, r.lower_bound, r.upper_bound⟩]

/-- Modelled from the spec: the variable list of the loopless formulation,
obtained by splitting each reaction in order. -/
def buildVars (m : Model) : List TransReaction :=
  (List.range m.reactions.length).foldr
    (fun j acc => splitReaction j (reactionAt m j) ++ acc) []

/-- The stoichiometric column of a transformed variable: `+S_j` for the
forward copy, `−S_j` for the reverse copy. -/
def tcol (m : Model) (t : TransReaction) (met : String) : ℚ :=
  (if t.isReverse then (-1 : ℚ) else 1) * stoich (reactionAt m t.origIdx) met

/-- A candidate point of the loopless MILP: forward flux `v`, reverse flux
`w`, forward and reverse indicators, and the shared certificate vector `x`
(one entry per metabolite). -/
structure MilpPoint where
  v : Nat → ℚ
  w : Nat → ℚ
  ifwd : Nat → ℚ
  irev : Nat → ℚ
  x : String → ℚ

/-- Net flux of original reaction `j` at a point: forward minus reverse
when the reaction was split, the forward value alone otherwise. -/
def netAt (m : Model) (p : MilpPoint) (j : Nat) : ℚ :=
  p.v j - (if hasReverse (reactionAt m j) then p.w j else 0)

/-- Sum of `f j` over `j < n`. -/
def idxSum (n : Nat) (f : Nat → ℚ) : ℚ :=
  ((List.range n).map f).sum

/-- The certificate combination `Σ_m S_{m,j} · x_m` for reaction `j`
(the forward column dotted with the shared certificate vector). -/
def colSum (m : Model) (j : Nat) (x : String → ℚ) : ℚ :=
  (m.metabolites.map (fun met => stoich (reactionAt m j) met * x met)).sum

/-- The per-reaction dual-certificate constraint of spec step 3:
`e − (1 − i)·(U + 1) ≤ −1` where `e` is the certificate combination,
`i` the indicator and `U` the big-M constant. -/
def specCert (q i e : ℚ) : Prop := e - (1 - i) * (q + 1) ≤ -1

/-- The third block row exactly as displayed in the notebook's combined
matrix: coefficient `max(ub)` on the indicator, right-hand side `≤ −1`. -/
def blockCertRow (q i e : ℚ) : Prop := q * i + e ≤ -1

/-- The block row that is actually equivalent to the per-reaction
certificate constraint: coefficient `U + 1` on the indicator and
right-hand side `≤ U`. -/
def blockCertFixedRow (q i e : ℚ) : Prop := (q + 1) * i + e ≤ q

/-- Mass balance `S·f = 0` of a flux assignment over original reaction
indices. -/
def balanced (m : Model) (f : Nat → ℚ) : Prop :=
  ∀ met ∈ m.metabolites,
    idxSum m.reactions.length (fun j => stoich (reactionAt m j) met * f j) = 0

/-- The transformed bound constraints of reaction `j` at a point: forward
variable within `[fwdLb, ub]`, and when the reaction is split the reverse
variable within `[0, −lb]`. -/
def boundsOk (m : Model) (p : MilpPoint) (j : Nat) : Prop :=
  (fwdLb (reactionAt m j) ≤ p.v j ∧ p.v j ≤ (reactionAt m j).upper_bound) ∧
  (hasReverse (reactionAt m j) = true →
    0 ≤ p.w j ∧ p.w j ≤ -(reactionAt m j).lower_bound)

/-- The loop-elimination constraints of internal reaction `j`: binary
indicators, the indicator-linking rows `v ≤ U·i`, and one certificate row
per transformed variable (the reverse copy uses the negated column); the
shape of the certificate row is the parameter `cert`.  Boundary reactions
are exempt. -/
def loopOk (cert : ℚ → ℚ → ℚ → Prop) (m : Model) (p : MilpPoint) (j : Nat) : Prop :=
  (reactionAt m j).is_boundary = false →
    ((p.ifwd j = 0 ∨ p.ifwd j = 1) ∧
      p.v j ≤ bigM m * p.ifwd j ∧
      cert (bigM m) (p.ifwd j) (colSum m j p.x)) ∧
    (hasReverse (reactionAt m j) = true →
      (p.irev j = 0 ∨ p.irev j = 1) ∧
      p.w j ≤ bigM m * p.irev j ∧
      cert (bigM m) (p.irev j) (-(colSum m j p.x)))

/-- Modelled from the spec: feasibility of a point for the assembled
constraint system of `build`, parameterized by the shape of the
dual-certificate row: transformed bound constraints and loop-elimination
constraints for every reaction, and mass balance over net fluxes (the
transformed system's `S·v = 0` restated over derived variables). -/
def feasibleWith (cert : ℚ → ℚ → ℚ → Prop) (m : Model) (p : MilpPoint) : Prop :=
  (∀ j, j < m.reactions.length → boundsOk m p j ∧ loopOk cert m p j) ∧
  balanced m (netAt m p)

/-- Feasibility for the loopless MILP with the spec's per-reaction
certificate constraints. -/
def looplessFeasible (m : Model) (p : MilpPoint) : Prop :=
  feasibleWith specCert m p

/-- Feasibility for the combined system with the third block row exactly
as displayed in the notebook. -/
def blockFeasible (m : Model) (p : MilpPoint) : Prop :=
  feasibleWith blockCertRow m p

/-- Feasibility for the combined system with the corrected third block
row. -/
def blockFeasibleFixed (m : Model) (p : MilpPoint) : Prop :=
  feasibleWith blockCertFixedRow m p

/-- Feasibility for the plain (non-loopless) FBA linear program:
`S·v = 0` and `lb ≤ v ≤ ub`. -/
def lpFeasible (m : Model) (v : Nat → ℚ) : Prop :=
  (∀ j, j < m.reactions.length →
    (reactionAt m j).lower_bound ≤ v j ∧ v j ≤ (reactionAt m j).upper_bound) ∧
  (∀ met ∈ m.metabolites,
    idxSum m.reactions.length (fun j => stoich (reactionAt m j) met * v j) = 0)

/-- The FBA objective over original fluxes. -/
def lpObj (m : Model) (v : Nat → ℚ) : ℚ :=
  idxSum m.reactions.length (fun j => (reactionAt m j).objective_coefficient * v j)

/-- The objective of the loopless formulation: each forward/reverse pair
contributes the original objective coefficient times the net flux. -/
def milpObj (m : Model) (p : MilpPoint) : ℚ :=
  idxSum m.reactions.length
    (fun j => (reactionAt m j).objective_coefficient * netAt m p j)

instance (q i e : ℚ) : Decidable (specCert q i e) :=
  inferInstanceAs (Decidable (_ ≤ _))

instance (q i e : ℚ) : Decidable (blockCertRow q i e) :=
  inferInstanceAs (Decidable (_ ≤ _))

instance (q i e : ℚ) : Decidable (blockCertFixedRow q i e) :=
  inferInstanceAs (Decidable (_ ≤ _))

instance (m : Model) (f : Nat → ℚ) : Decidable (balanced m f) := by
  unfold balanced
  infer_instance

instance (m : Model) (p : MilpPoint) (j : Nat) : Decidable (boundsOk m p j) := by
  unfold boundsOk
  infer_instance

instance (cert : ℚ → ℚ → ℚ → Prop) [∀ q i e, Decidable (cert q i e)]
    (m : Model) (p : MilpPoint) (j : Nat) : Decidable (loopOk cert m p j) := by
  unfold loopOk
  infer_instance

instance (cert : ℚ → ℚ → ℚ → Prop) [∀ q i e, Decidable (cert q i e)]
    (m : Model) (p : MilpPoint) : Decidable (feasibleWith cert m p) := by
  unfold feasibleWith
  infer_instance

instance (m : Model) (p : MilpPoint) : Decidable (looplessFeasible m p) := by
  unfold looplessFeasible
  infer_instance

instance (m : Model) (p : MilpPoint) : Decidable (blockFeasible m p) := by
  unfold blockFeasible
  infer_instance

instance (m : Model) (p : MilpPoint) : Decidable (blockFeasibleFixed m p) := by
  unfold blockFeasibleFixed
  infer_instance

instance (m : Model) (v : Nat → ℚ) : Decidable (lpFeasible m v) := by
  unfold lpFeasible
  infer_instance

/-- Structural errors of the builder (spec §7). -/
inductive BuildError where
  | InvalidBoundsError
  | DegenerateBoundsError
deriving DecidableEq

/-- Modelled from the spec: `build` as a fallible operation.  It fails fast
with `InvalidBoundsError` when some reaction has `lower_bound > upper_bound`,
fails fast with `DegenerateBoundsError` when every internal reaction has
`upper_bound = 0` (the spec's trigger for "no valid big-M"), and otherwise
returns the transformed variable list. -/
def buildE (m : Model) : Except BuildError (List TransReaction) :=
  if m.reactions.any (fun r => decide (r.upper_bound < r.lower_bound)) then
    .error .InvalidBoundsError
  else if (m.reactions.filter (fun r => !r.is_boundary)).all
      (fun r => decide (r.upper_bound = 0)) then
    .error .DegenerateBoundsError
  else .ok (buildVars m)

/-- Solver status enumeration of the Solution data model. -/
inductive SolStatus where
  | optimal
  | infeasible
  | unbounded
  | failed
deriving DecidableEq

/-- What the external MILP solver returns on the transformed problem:
status, objective value, and primal values for the forward and reverse
copies of each original reaction index. -/
structure SolverResult where
  status : SolStatus
  objective : ℚ
  vprimal : Nat → ℚ
  wprimal : Nat → ℚ

/-- The Solution exposed to the caller: status, objective value `f`, and
the primal map `x_dict` keyed by original reaction identifier. -/
structure Solution where
  status : SolStatus
  f : ℚ
  x_dict : List (String × ℚ)

/-- Net primal value of original reaction `j`: forward minus reverse for a
split reaction, the forward value alone otherwise. -/
def netPrimal (m : Model) (res : SolverResult) (j : Nat) : ℚ :=
  res.vprimal j - (if hasReverse (reactionAt m j) then res.wprimal j else 0)

/-- Modelled from the spec: `solve` maps an optimal solver result back to
original reaction space (each split pair collapsed to its net flux, keyed
by original reaction id, objective passed through unchanged); any other
status is propagated with no primal map. -/
def solve (m : Model) (res : SolverResult) : Solution :=
  match res.status with
  | .optimal =>
    ⟨.optimal, res.objective,
      (List.range m.reactions.length).map
        (fun j => ((reactionAt m j).id, netPrimal m res j))⟩
  | s => ⟨s, res.objective, []⟩

/-- Mass balance `S·v = 0` alone (used to speak about cycles). -/
def steadyFlux (m : Model) (v : Nat → ℚ) : Prop :=
  ∀ met ∈ m.metabolites,
    idxSum m.reactions.length (fun j => stoich (reactionAt m j) met * v j) = 0

/-- Reaction `j0` participates **only** in an elementary internal cycle:
there is a nonnegative steady-state circulation `c`, supported on internal
reactions, passing through `j0`, and every steady-state flux of the model
is a scalar multiple of `c`. -/
def cycleOnlyReaction (m : Model) (j0 : Nat) : Prop :=
  ∃ c : Nat → ℚ, steadyFlux m c ∧
    (∀ j, j < m.reactions.length → 0 ≤ c j) ∧
    (∀ j, j < m.reactions.length → (reactionAt m j).is_boundary = true → c j = 0) ∧
    0 < c j0 ∧
    (∀ v, steadyFlux m v → ∃ t : ℚ, ∀ j, j < m.reactions.length → v j = t * c j)

/-! ### Helper lemmas about the builder's data -/

/-- Every variable produced by splitting reaction `j` carries origin `j`. -/
lemma origIdx_of_mem_splitReaction {j : Nat} {r : Reaction} {t : TransReaction}
    (h : t ∈ splitReaction j r) : t.origIdx = j := by
  unfold splitReaction at h
  split_ifs at h <;> simp only [List.mem_cons, List.mem_singleton, List.not_mem_nil] at h <;>
    rcases h with h | h <;> first | (subst h; rfl) | simp_all

/-- Auxiliary form of `buildVars` over an explicit index list. -/
def buildAux (m : Model) (l : List Nat) : List TransReaction :=
  l.foldr (fun j acc => splitReaction j (reactionAt m j) ++ acc) []

lemma buildVars_eq_buildAux (m : Model) :
    buildVars m = buildAux m (List.range m.reactions.length) := rfl

lemma buildAux_append (m : Model) (l₁ l₂ : List Nat) :
    buildAux m (l₁ ++ l₂) = buildAux m l₁ ++ buildAux m l₂ := by
  induction l₁ with
  | nil => simp [buildAux]
  | cons a t ih => simp [buildAux] at ih ⊢; simp [ih]

lemma mem_buildAux {m : Model} {t : TransReaction} {l : List Nat} :
    t ∈ buildAux m l ↔ ∃ j ∈ l, t ∈ splitReaction j (reactionAt m j) := by
  induction l with
  | nil => simp [buildAux]
  | cons a s ih => simp [buildAux] at ih ⊢; rw [ih]

lemma mem_buildVars {m : Model} {t : TransReaction} :
    t ∈ buildVars m ↔
      ∃ j, j < m.reactions.length ∧ t ∈ splitReaction j (reactionAt m j) := by
  rw [buildVars_eq_buildAux, mem_buildAux]
  simp [List.mem_range]

lemma filter_buildAux (m : Model) (l : List Nat) (j : Nat) :
    (buildAux m l).filter (fun t => t.origIdx == j) =
      buildAux m (l.filter (fun k => k == j)) := by
  induction l with
  | nil => simp [buildAux]
  | cons a s ih =>
    have hsplit : (splitReaction a (reactionAt m a)).filter (fun t => t.origIdx == j) =
        if a = j then splitReaction a (reactionAt m a) else [] := by
      by_cases haj : a = j
      · rw [if_pos haj, List.filter_eq_self]
        intro t ht
        simp [origIdx_of_mem_splitReaction ht, haj]
      · rw [if_neg haj, List.filter_eq_nil_iff]
        intro t ht
        simp [origIdx_of_mem_splitReaction ht, haj]
    show ((splitReaction a (reactionAt m a) ++ buildAux m s).filter
        (fun t => t.origIdx == j)) = _
    rw [List.filter_append, hsplit, ih]
    by_cases haj : a = j
    · subst haj
      simp [buildAux]
    · simp [haj, buildAux]

lemma range_filter_eq {n j : Nat} (hj : j < n) :
    (List.range n).filter (fun k => k == j) = [j] := by
  induction n with
  | zero => omega
  | succ n ih =>
    rw [List.range_succ, List.filter_append]
    by_cases hjn : j = n
    · subst hjn
      have h1 : (List.range j).filter (fun k => k == j) = [] := by
        rw [List.filter_eq_nil_iff]
        intro k hk
        have hk' := List.mem_range.mp hk
        have hne : (k == j) = false := by
          rw [beq_eq_false_iff_ne]
          omega
        simp [hne]
      have h2 : ([j].filter (fun k => k == j)) = [j] := by simp
      rw [h1, h2]
      rfl
    · have hj' : j < n := by omega
      rw [ih hj']
      have hne : (n == j) = false := by
        rw [beq_eq_false_iff_ne]
        omega
      have h2 : ([n].filter (fun k => k == j)) = [] := by simp [List.filter, hne]
      rw [h2, List.append_nil]

/-- The formulation's variables originating from reaction `j` are exactly
the output of `splitReaction` on that reaction. -/
lemma filter_buildVars (m : Model) {j : Nat} (hj : j < m.reactions.length) :
    (buildVars m).filter (fun t => t.origIdx == j) =
      splitReaction j (reactionAt m j) := by
  rw [buildVars_eq_buildAux, filter_buildAux, range_filter_eq hj]
  simp [buildAux]

/-! ### Helper lemmas about the big-M constant -/

lemma le_bigMStep (r : Reaction) (acc : ℚ) : acc ≤ bigMStep r acc := by
  unfold bigMStep
  split_ifs <;> simp [le_max_right]

lemma bigMStep_acc_mono (r : Reaction) {a b : ℚ} (h : a ≤ b) :
    bigMStep r a ≤ bigMStep r b := by
  unfold bigMStep
  split_ifs <;> first | exact h | exact max_le_max le_rfl h

lemma bigMStep_ub_mono (r : Reaction) (acc : ℚ) {u : ℚ} (h : r.upper_bound ≤ u) :
    bigMStep r acc ≤ bigMStep { r with upper_bound := u } acc := by
  unfold bigMStep
  dsimp only
  split_ifs
  · exact le_rfl
  · exact max_le_max (max_le_max h le_rfl) le_rfl
  · exact max_le_max h le_rfl

lemma foldr_bigMStep_nonneg (l : List Reaction) : 0 ≤ l.foldr bigMStep 0 := by
  induction l with
  | nil => exact le_rfl
  | cons a t ih => exact le_trans ih (le_bigMStep a _)

/-- Nonnegativity of the big-M constant. -/
lemma bigM_nonneg (m : Model) : 0 ≤ bigM m := foldr_bigMStep_nonneg m.reactions

lemma ub_le_foldr_bigMStep {l : List Reaction} {r : Reaction} (hr : r ∈ l)
    (hb : r.is_boundary = false) : r.upper_bound ≤ l.foldr bigMStep 0 := by
  induction l with
  | nil => cases hr
  | cons a t ih =>
    rcases List.mem_cons.mp hr with h | h
    · subst h
      show r.upper_bound ≤ bigMStep r _
      unfold bigMStep
      split_ifs with h1 h2
      · exact absurd h1 (by simp [hb])
      · exact le_max_of_le_left (le_max_left _ _)
      · exact le_max_left _ _
    · exact le_trans (ih h) (le_bigMStep a _)

lemma neg_lb_le_foldr_bigMStep {l : List Reaction} {r : Reaction} (hr : r ∈ l)
    (hb : r.is_boundary = false) (hlb : r.lower_bound < 0) :
    -r.lower_bound ≤ l.foldr bigMStep 0 := by
  induction l with
  | nil => cases hr
  | cons a t ih =>
    rcases List.mem_cons.mp hr with h | h
    · subst h
      show -r.lower_bound ≤ bigMStep r _
      unfold bigMStep
      split_ifs with h1
      · exact absurd h1 (by simp [hb])
      · exact le_max_of_le_left (le_max_right _ _)
    · exact le_trans (ih h) (le_bigMStep a _)

/-- A transformed internal upper bound never exceeds the big-M constant. -/
lemma ub_le_bigM {m : Model} {r : Reaction} (hr : r ∈ m.reactions)
    (hb : r.is_boundary = false) : r.upper_bound ≤ bigM m :=
  ub_le_foldr_bigMStep hr hb

lemma neg_lb_le_bigM {m : Model} {r : Reaction} (hr : r ∈ m.reactions)
    (hb : r.is_boundary = false) (hlb : r.lower_bound < 0) :
    -r.lower_bound ≤ bigM m :=
  neg_lb_le_foldr_bigMStep hr hb hlb

/-! ### Helper lemmas for bound mutation -/

lemma getD_set_general {α : Type} (l : List α) (i k : Nat) (a d : α) :
    (l.set i a).getD k d =
      if i = k ∧ i < l.length then a else l.getD k d := by
  induction l generalizing i k with
  | nil => simp
  | cons b t ih =>
    cases i with
    | zero =>
      cases k <;> simp
    | succ i =>
      cases k with
      | zero => simp
      | succ k =>
        simp only [List.set, List.getD_cons_succ, List.length_cons]
        rw [ih]
        by_cases h : i = k ∧ i < t.length
        · rw [if_pos h, if_pos (by omega)]
        · rw [if_neg h, if_neg (by omega)]

/-- The toy model of the notebook: metabolites A, B, C; boundary exchange
EX_A (produces A) and demand DM_C (consumes C, objective coefficient 1);
internal cycle v1 : A→B, v2 : B→C, v3 : C→A.  The bounds `[0, 1000]` are
the external library's defaults (the notebook's reported optimum 1000.00
pins the upper bound), and the boundary flags follow the spec's boundary
classification (exactly one metabolite with nonzero coefficient). -/
def EX_A : Reaction := ⟨"EX_A", 0, 1000, [("A", 1)], 0, true⟩

/-- The toy model's demand reaction for C, the objective. -/
def DM_C : Reaction := ⟨"DM_C", 0, 1000, [("C", -1)], 1, true⟩

/-- Toy internal reaction A→B. -/
def v1 : Reaction := ⟨"v1", 0, 1000, [("A", -1), ("B", 1)], 0, false⟩

/-- Toy internal reaction B→C. -/
def v2 : Reaction := ⟨"v2", 0, 1000, [("B", -1), ("C", 1)], 0, false⟩

/-- Toy internal reaction C→A, closing the cycle. -/
def v3 : Reaction := ⟨"v3", 0, 1000, [("C", -1), ("A", 1)], 0, false⟩

/-- The notebook's five-reaction toy model, reactions in insertion order. -/
def toyModel : Model := ⟨["A", "B", "C"], [EX_A, DM_C, v1, v2, v3]⟩

/-- Setting the upper bound of reaction `j` (all other data unchanged). -/
def setUb (m : Model) (j : Nat) (u : ℚ) : Model :=
  ⟨m.metabolites, m.reactions.set j { reactionAt m j with upper_bound := u }⟩

/-- Setting the lower bound of reaction `j` (all other data unchanged). -/
def setLb (m : Model) (j : Nat) (x : ℚ) : Model :=
  ⟨m.metabolites, m.reactions.set j { reactionAt m j with lower_bound := x }⟩

/-- The toy model after the notebook's mutation `v3.lower_bound = 1`. -/
def toyModelForced : Model := setLb toyModel 4 1

/-- Reaction v3 with its lower bound forced to 1. -/
def v3f : Reaction := ⟨"v3", 1, 1000, [("C", -1), ("A", 1)], 0, false⟩

/-- A two-reaction pure cycle A⇄C whose forward member has a small upper
bound: `f : A→C` with `ub = 1/2`, `b : C→A` with `lower_bound = 1`.
Reaction `b` participates only in the elementary internal cycle `{f, b}`,
yet forcing `b ≥ 1` makes even the plain LP infeasible. -/
def rCycF : Reaction := ⟨"f", 0, 1/2, [("A", -1), ("C", 1)], 0, false⟩

/-- The cycle-closing reaction with forced lower bound 1. -/
def rCycB : Reaction := ⟨"b", 1, 1000, [("C", -1), ("A", 1)], 0, false⟩

/-- The two-reaction pure-cycle model used against claim C2. -/
def pureCycleModel : Model := ⟨["A", "C"], [rCycF, rCycB]⟩

/-- A single internal reaction producing M, bounds `[0, 10]`. -/
def rOne : Reaction := ⟨"r", 0, 10, [("M", 1)], 0, false⟩

/-- One-internal-reaction model separating the notebook's displayed block
row from the per-reaction certificate constraint. -/
def oneReactionModel : Model := ⟨["M"], [rOne]⟩

/-- A single internal reaction with `lower_bound = −5`, `upper_bound = 0`. -/
def rDeg : Reaction := ⟨"r", -5, 0, [("M", 1)], 0, false⟩

/-- Model whose every internal reaction has `upper_bound = 0` although a
strictly positive transformed bound (−lb = 5) exists. -/
def degenerateModel : Model := ⟨["M"], [rDeg]⟩

/-- A single reversible internal reaction, bounds `[−2, 3]`. -/
def rRev : Reaction := ⟨"rv", -2, 3, [("A", 1)], 0, false⟩

/-- Model with one reversible internal reaction (split by the builder). -/
def reversibleModel : Model := ⟨["A"], [rRev]⟩

/-- The all-zero MILP point. -/
def zeroPoint : MilpPoint := ⟨fun _ => 0, fun _ => 0, fun _ => 0, fun _ => 0, fun _ => 0⟩

/-- The cycle-free optimal point of the toy model: 1000 units A→B→C and
out through DM_C, no flux on v3, indicators on for v1, v2 only, and the
certificate `x = (0, −1, −2)` on (A, B, C). -/
def toyOpt : MilpPoint :=
  ⟨fun j => if j = 4 then 0 else 1000, fun _ => 0,
   fun j => if j = 4 then 0 else 1, fun _ => 0,
   fun met => if met = "B" then -1 else if met = "C" then -2 else 0⟩

/-- Variant of `toyOpt` with the (unconstrained) indicator of the boundary reaction
EX_A moved to 5. -/
def toyOptB : MilpPoint :=
  ⟨toyOpt.v, toyOpt.w, fun k => if k = 0 then 5 else toyOpt.ifwd k, toyOpt.irev, toyOpt.x⟩

/-- An LP-feasible flux of the forced toy model: one unit circulating
A→B→C→A, nothing exchanged. -/
def forcedLp : Nat → ℚ := fun j => if j ≤ 1 then 0 else 1

/-- A sample optimal solver result used to instantiate `solve`. -/
def sampleRes : SolverResult := ⟨.optimal, 7, fun _ => 2, fun _ => 2⟩

/-! ### Evaluation lemmas on the concrete models -/

@[simp] lemma toy_len : toyModel.reactions.length = 5 := rfl
@[simp] lemma toy_mets : toyModel.metabolites = ["A", "B", "C"] := rfl
@[simp] lemma toy_at0 : reactionAt toyModel 0 = EX_A := rfl
@[simp] lemma toy_at1 : reactionAt toyModel 1 = DM_C := rfl
@[simp] lemma toy_at2 : reactionAt toyModel 2 = v1 := rfl
@[simp] lemma toy_at3 : reactionAt toyModel 3 = v2 := rfl
@[simp] lemma toy_at4 : reactionAt toyModel 4 = v3 := rfl
@[simp] lemma st_EXA_A : stoich EX_A "A" = 1 := rfl
@[simp] lemma st_EXA_B : stoich EX_A "B" = 0 := rfl
@[simp] lemma st_EXA_C : stoich EX_A "C" = 0 := rfl
@[simp] lemma st_DMC_A : stoich DM_C "A" = 0 := rfl
@[simp] lemma st_DMC_B : stoich DM_C "B" = 0 := rfl
@[simp] lemma st_DMC_C : stoich DM_C "C" = -1 := rfl
@[simp] lemma st_v1_A : stoich v1 "A" = -1 := rfl
@[simp] lemma st_v1_B : stoich v1 "B" = 1 := rfl
@[simp] lemma st_v1_C : stoich v1 "C" = 0 := rfl
@[simp] lemma st_v2_A : stoich v2 "A" = 0 := rfl
@[simp] lemma st_v2_B : stoich v2 "B" = -1 := rfl
@[simp] lemma st_v2_C : stoich v2 "C" = 1 := rfl
@[simp] lemma st_v3_A : stoich v3 "A" = 1 := rfl
@[simp] lemma st_v3_B : stoich v3 "B" = 0 := rfl
@[simp] lemma st_v3_C : stoich v3 "C" = -1 := rfl
@[simp] lemma hr_EXA : hasReverse EX_A = false := rfl
@[simp] lemma hr_DMC : hasReverse DM_C = false := rfl
@[simp] lemma hr_v1 : hasReverse v1 = false := rfl
@[simp] lemma hr_v2 : hasReverse v2 = false := rfl
@[simp] lemma hr_v3 : hasReverse v3 = false := rfl
@[simp] lemma bd_EXA : EX_A.is_boundary = true := rfl
@[simp] lemma bd_DMC : DM_C.is_boundary = true := rfl
@[simp] lemma bd_v1 : v1.is_boundary = false := rfl
@[simp] lemma bd_v2 : v2.is_boundary = false := rfl
@[simp] lemma bd_v3 : v3.is_boundary = false := rfl
@[simp] lemma lb_EXA : EX_A.lower_bound = 0 := rfl
@[simp] lemma lb_DMC : DM_C.lower_bound = 0 := rfl
@[simp] lemma lb_v1 : v1.lower_bound = 0 := rfl
@[simp] lemma lb_v2 : v2.lower_bound = 0 := rfl
@[simp] lemma lb_v3 : v3.lower_bound = 0 := rfl
@[simp] lemma ub_EXA : EX_A.upper_bound = 1000 := rfl
@[simp] lemma ub_DMC : DM_C.upper_bound = 1000 := rfl
@[simp] lemma ub_v1 : v1.upper_bound = 1000 := rfl
@[simp] lemma ub_v2 : v2.upper_bound = 1000 := rfl
@[simp] lemma ub_v3 : v3.upper_bound = 1000 := rfl
@[simp] lemma oc_EXA : EX_A.objective_coefficient = 0 := rfl
@[simp] lemma oc_DMC : DM_C.objective_coefficient = 1 := rfl
@[simp] lemma oc_v1 : v1.objective_coefficient = 0 := rfl
@[simp] lemma oc_v2 : v2.objective_coefficient = 0 := rfl
@[simp] lemma oc_v3 : v3.objective_coefficient = 0 := rfl
@[simp] lemma bigM_toy : bigM toyModel = 1000 := rfl

lemma toyModelForced_eq : toyModelForced = ⟨["A", "B", "C"], [EX_A, DM_C, v1, v2, v3f]⟩ := rfl

@[simp] lemma tmf_len : toyModelForced.reactions.length = 5 := rfl
@[simp] lemma tmf_mets : toyModelForced.metabolites = ["A", "B", "C"] := rfl
@[simp] lemma tmf_at0 : reactionAt toyModelForced 0 = EX_A := rfl
@[simp] lemma tmf_at1 : reactionAt toyModelForced 1 = DM_C := rfl
@[simp] lemma tmf_at2 : reactionAt toyModelForced 2 = v1 := rfl
@[simp] lemma tmf_at3 : reactionAt toyModelForced 3 = v2 := rfl
@[simp] lemma tmf_at4 : reactionAt toyModelForced 4 = v3f := rfl
@[simp] lemma st_v3f_A : stoich v3f "A" = 1 := rfl
@[simp] lemma st_v3f_B : stoich v3f "B" = 0 := rfl
@[simp] lemma st_v3f_C : stoich v3f "C" = -1 := rfl
@[simp] lemma hr_v3f : hasReverse v3f = false := rfl
@[simp] lemma bd_v3f : v3f.is_boundary = false := rfl
@[simp] lemma lb_v3f : v3f.lower_bound = 1 := rfl
@[simp] lemma ub_v3f : v3f.upper_bound = 1000 := rfl
@[simp] lemma oc_v3f : v3f.objective_coefficient = 0 := rfl
@[simp] lemma bigM_tmf : bigM toyModelForced = 1000 := rfl

@[simp] lemma pcm_len : pureCycleModel.reactions.length = 2 := rfl
@[simp] lemma pcm_mets : pureCycleModel.metabolites = ["A", "C"] := rfl
@[simp] lemma pcm_at0 : reactionAt pureCycleModel 0 = rCycF := rfl
@[simp] lemma pcm_at1 : reactionAt pureCycleModel 1 = rCycB := rfl
@[simp] lemma st_cycF_A : stoich rCycF "A" = -1 := rfl
@[simp] lemma st_cycF_C : stoich rCycF "C" = 1 := rfl
@[simp] lemma st_cycB_A : stoich rCycB "A" = 1 := rfl
@[simp] lemma st_cycB_C : stoich rCycB "C" = -1 := rfl
@[simp] lemma bd_cycF : rCycF.is_boundary = false := rfl
@[simp] lemma bd_cycB : rCycB.is_boundary = false := rfl
@[simp] lemma lb_cycF : rCycF.lower_bound = 0 := rfl
@[simp] lemma lb_cycB : rCycB.lower_bound = 1 := rfl
@[simp] lemma ub_cycF : rCycF.upper_bound = 1/2 := rfl
@[simp] lemma ub_cycB : rCycB.upper_bound = 1000 := rfl

@[simp] lemma orm_len : oneReactionModel.reactions.length = 1 := rfl
@[simp] lemma orm_mets : oneReactionModel.metabolites = ["M"] := rfl
@[simp] lemma orm_at0 : reactionAt oneReactionModel 0 = rOne := rfl
@[simp] lemma st_rOne_M : stoich rOne "M" = 1 := rfl
@[simp] lemma hr_rOne : hasReverse rOne = false := rfl
@[simp] lemma bd_rOne : rOne.is_boundary = false := rfl
@[simp] lemma lb_rOne : rOne.lower_bound = 0 := rfl
@[simp] lemma ub_rOne : rOne.upper_bound = 10 := rfl
@[simp] lemma bigM_orm : bigM oneReactionModel = 10 := rfl

@[simp] lemma bigM_degenerate : bigM degenerateModel = 5 := rfl

@[simp] lemma rev_len : reversibleModel.reactions.length = 1 := rfl
@[simp] lemma rev_mets : reversibleModel.metabolites = ["A"] := rfl
@[simp] lemma rev_at0 : reactionAt reversibleModel 0 = rRev := rfl
@[simp] lemma st_rRev_A : stoich rRev "A" = 1 := rfl
@[simp] lemma hr_rRev : hasReverse rRev = true := rfl
@[simp] lemma bd_rRev : rRev.is_boundary = false := rfl
@[simp] lemma lb_rRev : rRev.lower_bound = -2 := rfl
@[simp] lemma ub_rRev : rRev.upper_bound = 3 := rfl
@[simp] lemma bigM_rev : bigM reversibleModel = 3 := rfl

@[simp] lemma zeroPoint_v (j : Nat) : zeroPoint.v j = 0 := rfl
@[simp] lemma zeroPoint_w (j : Nat) : zeroPoint.w j = 0 := rfl
@[simp] lemma zeroPoint_ifwd (j : Nat) : zeroPoint.ifwd j = 0 := rfl
@[simp] lemma zeroPoint_irev (j : Nat) : zeroPoint.irev j = 0 := rfl
@[simp] lemma zeroPoint_x (met : String) : zeroPoint.x met = 0 := rfl

@[simp] lemma toyOpt_v0 : toyOpt.v 0 = 1000 := rfl
@[simp] lemma toyOpt_v1 : toyOpt.v 1 = 1000 := rfl
@[simp] lemma toyOpt_v2 : toyOpt.v 2 = 1000 := rfl
@[simp] lemma toyOpt_v3 : toyOpt.v 3 = 1000 := rfl
@[simp] lemma toyOpt_v4 : toyOpt.v 4 = 0 := rfl
@[simp] lemma toyOpt_w (j : Nat) : toyOpt.w j = 0 := rfl
@[simp] lemma toyOpt_i0 : toyOpt.ifwd 0 = 1 := rfl
@[simp] lemma toyOpt_i1 : toyOpt.ifwd 1 = 1 := rfl
@[simp] lemma toyOpt_i2 : toyOpt.ifwd 2 = 1 := rfl
@[simp] lemma toyOpt_i3 : toyOpt.ifwd 3 = 1 := rfl
@[simp] lemma toyOpt_i4 : toyOpt.ifwd 4 = 0 := rfl
@[simp] lemma toyOpt_xA : toyOpt.x "A" = 0 := rfl
@[simp] lemma toyOpt_xB : toyOpt.x "B" = -1 := rfl
@[simp] lemma toyOpt_xC : toyOpt.x "C" = -2 := rfl

@[simp] lemma forcedLp_0 : forcedLp 0 = 0 := rfl
@[simp] lemma forcedLp_1 : forcedLp 1 = 0 := rfl
@[simp] lemma forcedLp_2 : forcedLp 2 = 1 := rfl
@[simp] lemma forcedLp_3 : forcedLp 3 = 1 := rfl
@[simp] lemma forcedLp_4 : forcedLp 4 = 1 := rfl

/-! ### Congruence and mutation lemmas -/

lemma idxSum_congr {n : Nat} {f g : Nat → ℚ} (h : ∀ k, k < n → f k = g k) :
    idxSum n f = idxSum n g := by
  unfold idxSum
  congr 1
  apply List.map_congr_left
  intro a ha
  exact h a (List.mem_range.mp ha)

/-- Changing one certificate-row shape into an equivalent one preserves the
feasible set. -/
lemma feasibleWith_congr {c₁ c₂ : ℚ → ℚ → ℚ → Prop}
    (h : ∀ q i e, c₁ q i e ↔ c₂ q i e) (m : Model) (p : MilpPoint) :
    feasibleWith c₁ m p ↔ feasibleWith c₂ m p := by
  unfold feasibleWith loopOk
  simp only [h]

lemma mets_setUb (m : Model) (j : Nat) (u : ℚ) :
    (setUb m j u).metabolites = m.metabolites := rfl

lemma length_setUb (m : Model) (j : Nat) (u : ℚ) :
    (setUb m j u).reactions.length = m.reactions.length := by
  unfold setUb
  exact List.length_set ..

lemma reactionAt_setUb (m : Model) (j k : Nat) (u : ℚ) :
    reactionAt (setUb m j u) k =
      if j = k ∧ j < m.reactions.length then { reactionAt m j with upper_bound := u }
      else reactionAt m k := by
  unfold setUb reactionAt
  exact getD_set_general ..

lemma stoich_updUb (r : Reaction) (u : ℚ) (met : String) :
    stoich { r with upper_bound := u } met = stoich r met := rfl

lemma hasReverse_updUb (r : Reaction) (u : ℚ) :
    hasReverse { r with upper_bound := u } = hasReverse r := rfl

lemma fwdLb_updUb (r : Reaction) (u : ℚ) :
    fwdLb { r with upper_bound := u } = fwdLb r := rfl

lemma foldr_bigM_set_mono (l : List Reaction) (j : Nat) {u : ℚ}
    (h : (l.getD j default).upper_bound ≤ u) :
    l.foldr bigMStep 0 ≤
      (l.set j { l.getD j default with upper_bound := u }).foldr bigMStep 0 := by
  induction l generalizing j with
  | nil => simp
  | cons a t ih =>
    cases j with
    | zero =>
      exact bigMStep_ub_mono a _ h
    | succ j =>
      show bigMStep a _ ≤ bigMStep a _
      exact bigMStep_acc_mono a (ih j h)

/-- Raising an upper bound can only raise the big-M constant. -/
lemma bigM_le_setUb (m : Model) (j : Nat) {u : ℚ}
    (h : (reactionAt m j).upper_bound ≤ u) :
    bigM m ≤ bigM (setUb m j u) :=
  foldr_bigM_set_mono m.reactions j h

/-! ### Evaluation lemmas for the toy objective and balances -/

lemma toy_milpObj (p : MilpPoint) : milpObj toyModel p = p.v 1 := by
  norm_num [milpObj, idxSum, List.range_succ, netAt]

lemma toy_lpObj (f : Nat → ℚ) : lpObj toyModel f = f 1 := by
  norm_num [lpObj, idxSum, List.range_succ]

lemma toyOpt_loopless : looplessFeasible toyModel toyOpt := by
  constructor
  · intro j hj
    rw [toy_len] at hj
    interval_cases j <;>
      norm_num [boundsOk, loopOk, fwdLb, colSum, specCert]
  · intro met hm
    fin_cases hm <;>
      norm_num [idxSum, List.range_succ, netAt]

lemma toyOpt_lp : lpFeasible toyModel toyOpt.v := by
  constructor
  · intro j hj
    rw [toy_len] at hj
    interval_cases j <;> norm_num
  · intro met hm
    fin_cases hm <;>
      norm_num [idxSum, List.range_succ]

/-! ### Claims -/

/-- Claim C1:  For the notebook's five-reaction toy model, the loopless
formulation is solvable (status optimal) with optimal objective value 1000
equal to the unconstrained FBA optimum, and every optimal loopless point
carries zero flux through the cycle reaction v3: a loopless-feasible point
of objective 1000 exists, no loopless-feasible point exceeds 1000, an
LP-feasible point of objective 1000 exists, no LP-feasible point exceeds
1000, and every loopless-feasible point attaining 1000 has `v3 = 0`. -/
theorem c1_toy_loopless_equals_fba :
    (∃ p, looplessFeasible toyModel p ∧ milpObj toyModel p = 1000) ∧
    (∀ p, looplessFeasible toyModel p → milpObj toyModel p ≤ 1000) ∧
    (∃ v, lpFeasible toyModel v ∧ lpObj toyModel v = 1000) ∧
    (∀ v, lpFeasible toyModel v → lpObj toyModel v ≤ 1000) ∧
    (∀ p, looplessFeasible toyModel p → milpObj toyModel p = 1000 → p.v 4 = 0) := by
  refine ⟨⟨toyOpt, toyOpt_loopless, by rw [toy_milpObj]; norm_num⟩, ?_, ?_, ?_, ?_⟩
  · intro p hp
    obtain ⟨hc, hb⟩ := hp
    have hub : p.v 1 ≤ 1000 := by
      simpa [boundsOk] using (hc 1 (by norm_num)).1.1.2
    rw [toy_milpObj]
    exact hub
  · exact ⟨toyOpt.v, toyOpt_lp, by rw [toy_lpObj]; norm_num⟩
  · intro v hv
    obtain ⟨hc, hb⟩ := hv
    have hub : v 1 ≤ 1000 := by
      simpa using (hc 1 (by norm_num)).2
    rw [toy_lpObj]
    exact hub
  · intro p hp hopt
    obtain ⟨hc, hb⟩ := hp
    have hbC : -p.v 1 + (p.v 3 + -p.v 4) = 0 := by
      simpa [idxSum, List.range_succ, netAt] using hb "C" (by norm_num)
    have h3 : p.v 3 ≤ 1000 := by
      simpa [boundsOk] using (hc 3 (by norm_num)).1.1.2
    have h4 : 0 ≤ p.v 4 := by
      have := (hc 4 (by norm_num)).1.1.1
      simpa [boundsOk, fwdLb] using this
    rw [toy_milpObj] at hopt
    linarith

lemma tmf_colSum2 (x : String → ℚ) : colSum toyModelForced 2 x = -x "A" + x "B" := by
  norm_num [colSum]

lemma tmf_colSum3 (x : String → ℚ) : colSum toyModelForced 3 x = -x "B" + x "C" := by
  norm_num [colSum]

lemma tmf_colSum4 (x : String → ℚ) : colSum toyModelForced 4 x = x "A" - x "C" := by
  norm_num [colSum]
  ring

/-- Claim C2, counterexample:  The claim quantifies over every model with a
reaction participating only in an elementary internal cycle and asserts
that after forcing `lower_bound ≥ 1` on it the non-loopless formulation
remains feasible.  In `pureCycleModel`, reaction 1 participates only in
the elementary internal cycle `{0, 1}` (every steady flux is a multiple of
the circulation) and has `lower_bound = 1`, yet the non-loopless LP is
already infeasible because the other cycle member's upper bound is 1/2. -/
theorem c2_counterexample_pure_cycle :
    cycleOnlyReaction pureCycleModel 1 ∧
    (reactionAt pureCycleModel 1).lower_bound = 1 ∧
    ¬(∃ v, lpFeasible pureCycleModel v) := by
  refine ⟨⟨fun _ => 1, ?_, ?_, ?_, ?_, ?_⟩, by norm_num, ?_⟩
  · intro met hm
    fin_cases hm <;> norm_num [idxSum, List.range_succ]
  · intro j hj
    norm_num
  · intro j hj hbd
    rw [pcm_len] at hj
    interval_cases j <;> simp_all
  · norm_num
  · intro v hv
    have hA : -v 0 + v 1 = 0 := by
      simpa [idxSum, List.range_succ] using hv "A" (by norm_num)
    refine ⟨v 0, ?_⟩
    intro j hj
    rw [pcm_len] at hj
    interval_cases j
    · ring
    · rw [mul_one]
      linarith
  · rintro ⟨v, hbd, hbal⟩
    have h0 : v 0 ≤ 1 / 2 := by
      simpa using (hbd 0 (by norm_num)).2
    have h1 : 1 ≤ v 1 := by
      simpa using (hbd 1 (by norm_num)).1
    have hA : -v 0 + v 1 = 0 := by
      simpa [idxSum, List.range_succ] using hbal "A" (by norm_num)
    linarith

/-- Claim C2, amended:  In the concrete instance the claim is built on — the
toy model after `v3.lower_bound = 1` — the loopless formulation is indeed
infeasible while the non-loopless formulation remains feasible.  (The
universal version fails: the non-loopless LP need not stay feasible when
another cycle member's upper bound cannot carry the forced flux.) -/
theorem c2_amended_forced_toy :
    (∃ v, lpFeasible toyModelForced v) ∧
    ¬(∃ p, looplessFeasible toyModelForced p) := by
  constructor
  · refine ⟨forcedLp, ?_, ?_⟩
    · intro j hj
      rw [tmf_len] at hj
      interval_cases j <;> norm_num
    · intro met hm
      fin_cases hm <;> norm_num [idxSum, List.range_succ]
  · rintro ⟨p, hc, hb⟩
    have hv4 : 1 ≤ p.v 4 := by
      simpa [boundsOk, fwdLb] using (hc 4 (by norm_num)).1.1.1
    have hv0 : 0 ≤ p.v 0 := by
      simpa [boundsOk, fwdLb] using (hc 0 (by norm_num)).1.1.1
    have hbA : p.v 0 + (-p.v 2 + p.v 4) = 0 := by
      simpa [idxSum, List.range_succ, netAt] using hb "A" (by norm_num)
    have hbB : p.v 2 + -p.v 3 = 0 := by
      simpa [idxSum, List.range_succ, netAt] using hb "B" (by norm_num)
    have hv2 : 1 ≤ p.v 2 := by linarith
    have hv3 : 1 ≤ p.v 3 := by linarith
    obtain ⟨⟨hbin2, hlink2, hcert2⟩, -⟩ := (hc 2 (by norm_num)).2 (by simp)
    obtain ⟨⟨hbin3, hlink3, hcert3⟩, -⟩ := (hc 3 (by norm_num)).2 (by simp)
    obtain ⟨⟨hbin4, hlink4, hcert4⟩, -⟩ := (hc 4 (by norm_num)).2 (by simp)
    have hi2 : p.ifwd 2 = 1 := by
      rcases hbin2 with h | h
      · rw [h, mul_zero] at hlink2
        linarith
      · exact h
    have hi3 : p.ifwd 3 = 1 := by
      rcases hbin3 with h | h
      · rw [h, mul_zero] at hlink3
        linarith
      · exact h
    have hi4 : p.ifwd 4 = 1 := by
      rcases hbin4 with h | h
      · rw [h, mul_zero] at hlink4
        linarith
      · exact h
    rw [hi2] at hcert2
    rw [hi3] at hcert3
    rw [hi4] at hcert4
    rw [specCert, tmf_colSum2] at hcert2
    rw [specCert, tmf_colSum3] at hcert3
    rw [specCert, tmf_colSum4] at hcert4
    linarith

lemma orm_colSum (x : String → ℚ) : colSum oneReactionModel 0 x = x "M" := by
  norm_num [colSum]

lemma zero_loopless_orm : looplessFeasible oneReactionModel zeroPoint := by
  constructor
  · intro j hj
    rw [orm_len] at hj
    interval_cases j
    refine ⟨?_, ?_⟩
    · norm_num [boundsOk, fwdLb]
    · intro hbd
      refine ⟨⟨Or.inl rfl, by norm_num, ?_⟩, ?_⟩
      · rw [specCert, orm_colSum]
        norm_num
      · intro hrev
        simp at hrev
  · intro met hm
    fin_cases hm
    norm_num [idxSum, List.range_succ, netAt]

/-- Claim C3, counterexample:  The all-zero point of a one-internal-reaction
model (bounds `[0, 10]`, so `U = 10`) satisfies every per-reaction
constraint of steps 2 and 3 — with `i = 0` the certificate row is vacuous —
but violates the notebook's displayed third block row `U·i + Sᵀx ≤ −1`,
which at `i = 0, x = 0` demands `0 ≤ −1`.  The two systems therefore do
not have the same feasible set. -/
theorem c3_counterexample_block_row :
    looplessFeasible oneReactionModel zeroPoint ∧
    ¬blockFeasible oneReactionModel zeroPoint := by
  refine ⟨zero_loopless_orm, ?_⟩
  rintro ⟨hc, -⟩
  obtain ⟨⟨-, -, hcert⟩, -⟩ := (hc 0 (by norm_num)).2 (by simp)
  rw [blockCertRow, orm_colSum] at hcert
  norm_num at hcert

/-- Claim C3, amended:  The notebook's third block row is off by a typo: the
indicator coefficient must be `U + 1` (not `U`) and the right-hand side
`≤ U` (not `≤ −1`).  With that correction the assembled block system has
exactly the same feasible set over `(v, i, x)` as the conjunction of the
per-reaction constraints `v_j ≤ U·i_j` and
`Σ_m S_mj·x_m − (1 − i_j)·(U + 1) ≤ −1`, for every model and point. -/
theorem c3_amended_block_equivalence (m : Model) (p : MilpPoint) :
    blockFeasibleFixed m p ↔ looplessFeasible m p := by
  unfold blockFeasibleFixed looplessFeasible
  apply feasibleWith_congr
  intro q i e
  unfold blockCertFixedRow specCert
  constructor <;> intro h <;> nlinarith [h]

/-- Claim C4:  Irreversibility normalization: an internal reaction with
negative lower bound produces exactly the forward variable `[0, ub]` with
column `+S_j` and the reverse variable `[0, −lb]` with column `−S_j`, and
its net flux is `v_f − v_r`; an internal reaction with nonnegative lower
bound passes through as a single forward variable with original bounds;
and every transformed internal variable has nonnegative lower bound and
upper bound at most `U = max(ub)`. -/
theorem c4_irreversibility_normalization (m : Model) (j : Nat)
    (hj : j < m.reactions.length) (hint : (reactionAt m j).is_boundary = false) :
    ((reactionAt m j).lower_bound < 0 →
      ((buildVars m).filter (fun t => t.origIdx == j) =
        [⟨j, false, 0, (reactionAt m j).upper_bound⟩,
         ⟨j, true, 0, -(reactionAt m j).lower_bound⟩] ∧
      (∀ met, tcol m ⟨j, false, 0, (reactionAt m j).upper_bound⟩ met
          = stoich (reactionAt m j) met ∧
        tcol m ⟨j, true, 0, -(reactionAt m j).lower_bound⟩ met
          = -stoich (reactionAt m j) met) ∧
      (∀ p : MilpPoint, netAt m p j = p.v j - p.w j))) ∧
    (0 ≤ (reactionAt m j).lower_bound →
      (buildVars m).filter (fun t => t.origIdx == j) =
        [⟨j, false, (reactionAt m j).lower_bound, (reactionAt m j).upper_bound⟩]) ∧
    (∀ t ∈ buildVars m, (reactionAt m t.origIdx).is_boundary = false →
      0 ≤ t.lb ∧ t.ub ≤ bigM m) := by
  refine ⟨?_, ?_, ?_⟩
  · intro hlb
    refine ⟨?_, ?_, ?_⟩
    · rw [filter_buildVars m hj]
      unfold splitReaction
      rw [if_neg (by simp [hint]), if_pos hlb]
    · intro met
      constructor <;> simp [tcol]
    · intro p
      have hr : hasReverse (reactionAt m j) = true := by
        simp [hasReverse, hint, hlb]
      simp [netAt, hr]
  · intro hlb
    rw [filter_buildVars m hj]
    unfold splitReaction
    rw [if_neg (by simp [hint]), if_neg (not_lt.mpr hlb)]
  · intro t ht hbint
    obtain ⟨k, hk, hmem⟩ := mem_buildVars.mp ht
    have horig := origIdx_of_mem_splitReaction hmem
    rw [horig] at hbint
    have hrm : reactionAt m k ∈ m.reactions := by
      unfold reactionAt
      rw [List.getD_eq_get _ _ hk]
      exact List.get_mem ..
    unfold splitReaction at hmem
    rw [if_neg (by simp [hbint])] at hmem
    by_cases hlb : (reactionAt m k).lower_bound < 0
    · rw [if_pos hlb] at hmem
      simp only [List.mem_cons, List.mem_singleton, List.not_mem_nil, or_false] at hmem
      rcases hmem with rfl | rfl
      · exact ⟨le_rfl, ub_le_bigM hrm hbint⟩
      · exact ⟨le_rfl, neg_lb_le_bigM hrm hbint hlb⟩
    · rw [if_neg hlb] at hmem
      simp only [List.mem_singleton] at hmem
      subst hmem
      exact ⟨not_lt.mp hlb, ub_le_bigM hrm hbint⟩

/-- Witness for C4 at the reversible internal reaction of
`reversibleModel` (`lb = −2 < 0`): its derived variables are exactly the
forward `[0, 3]` and reverse `[0, 2]` pair. -/
theorem c4_witness :
    ((0 < reversibleModel.reactions.length ∧
        (reactionAt reversibleModel 0).is_boundary = false) ∧
      (reactionAt reversibleModel 0).lower_bound < 0) ∧
    (buildVars reversibleModel).filter (fun t => t.origIdx == 0) =
      [⟨0, false, 0, (reactionAt reversibleModel 0).upper_bound⟩,
       ⟨0, true, 0, -(reactionAt reversibleModel 0).lower_bound⟩] :=
  ⟨⟨⟨by norm_num, rfl⟩, by norm_num⟩,
    ((c4_irreversibility_normalization reversibleModel 0 (by norm_num) rfl).1
      (by norm_num)).1⟩

/-- One direction of indicator insensitivity: feasibility transfers to any
point that agrees on fluxes, the certificate vector, and the indicators of
internal reactions. -/
lemma loopless_of_indicator_agree {m : Model} {p q : MilpPoint}
    (hv : p.v = q.v) (hw : p.w = q.w) (hx : p.x = q.x)
    (hi : ∀ k, k < m.reactions.length → (reactionAt m k).is_boundary = false →
      p.ifwd k = q.ifwd k ∧ p.irev k = q.irev k)
    (h : looplessFeasible m p) : looplessFeasible m q := by
  obtain ⟨hc, hb⟩ := h
  constructor
  · intro k hk
    obtain ⟨hbd, hlp⟩ := hc k hk
    constructor
    · unfold boundsOk at hbd ⊢
      rw [← hv, ← hw]
      exact hbd
    · unfold loopOk at hlp ⊢
      intro hbf
      obtain ⟨hif, hir⟩ := hi k hk hbf
      rw [← hv, ← hw, ← hx, ← hif, ← hir]
      exact hlp hbf
  · unfold balanced at hb ⊢
    intro met hm
    have hcong : ∀ k, k < m.reactions.length →
        stoich (reactionAt m k) met * netAt m q k =
          stoich (reactionAt m k) met * netAt m p k := by
      intro k hk
      unfold netAt
      rw [← hv, ← hw]
    rw [idxSum_congr hcong]
    exact hb met hm

/-- Claim C5:  Boundary exemption: a boundary reaction is carried over as a
single variable with its original bounds, and the loopless formulation has
no indicator or dual-certificate constraint for it — its feasibility is
insensitive to the indicator entries of boundary reactions (only internal
indicators matter). -/
theorem c5_boundary_exemption (m : Model) (j : Nat)
    (hj : j < m.reactions.length) (hb : (reactionAt m j).is_boundary = true) :
    ((buildVars m).filter (fun t => t.origIdx == j) =
      [⟨j, false, (reactionAt m j).lower_bound, (reactionAt m j).upper_bound⟩]) ∧
    (∀ p q : MilpPoint, p.v = q.v → p.w = q.w → p.x = q.x →
      (∀ k, k < m.reactions.length → (reactionAt m k).is_boundary = false →
        p.ifwd k = q.ifwd k ∧ p.irev k = q.irev k) →
      (looplessFeasible m p ↔ looplessFeasible m q)) := by
  constructor
  · rw [filter_buildVars m hj]
    unfold splitReaction
    rw [if_pos hb]
  · intro p q hv hw hx hi
    constructor
    · exact loopless_of_indicator_agree hv hw hx hi
    · exact loopless_of_indicator_agree hv.symm hw.symm hx.symm
        (fun k hk hbf => ⟨(hi k hk hbf).1.symm, (hi k hk hbf).2.symm⟩)

/-- Witness for C5: on the toy model, moving the EX_A (boundary) indicator
from 1 to 5 does not change loopless feasibility. -/
theorem c5_witness :
    (0 < toyModel.reactions.length ∧ (reactionAt toyModel 0).is_boundary = true) ∧
    (looplessFeasible toyModel toyOpt ↔ looplessFeasible toyModel toyOptB) :=
  ⟨⟨by norm_num, rfl⟩,
    (c5_boundary_exemption toyModel 0 (by norm_num) rfl).2 toyOpt toyOptB rfl rfl rfl
      (by
        intro k hk hbf
        rw [toy_len] at hk
        interval_cases k
        · exact absurd hbf (by simp)
        · exact absurd hbf (by simp)
        · exact ⟨rfl, rfl⟩
        · exact ⟨rfl, rfl⟩
        · exact ⟨rfl, rfl⟩)⟩

/-- Claim C6:  Postcondition of `solve`: on an optimal solver status, the
Solution keeps the objective value unchanged, its primal map is keyed by
the original reaction identifiers in order, entry `j` holds the net value
of reaction `j`, and for a split reaction that net value is
`v_j_f − v_j_r`. -/
theorem c6_solve_postcondition (m : Model) (res : SolverResult)
    (h : res.status = SolStatus.optimal) :
    (solve m res).status = SolStatus.optimal ∧
    (solve m res).f = res.objective ∧
    ((solve m res).x_dict.map Prod.fst =
      (List.range m.reactions.length).map (fun j => (reactionAt m j).id)) ∧
    (∀ j, j < m.reactions.length →
      (solve m res).x_dict.get? j = some ((reactionAt m j).id, netPrimal m res j)) ∧
    (∀ j, j < m.reactions.length → hasReverse (reactionAt m j) = true →
      netPrimal m res j = res.vprimal j - res.wprimal j) := by
  have hsolve : solve m res =
      ⟨.optimal, res.objective,
        (List.range m.reactions.length).map
          (fun j => ((reactionAt m j).id, netPrimal m res j))⟩ := by
    unfold solve
    rw [h]
  refine ⟨by rw [hsolve], by rw [hsolve], ?_, ?_, ?_⟩
  · rw [hsolve]
    simp [List.map_map, Function.comp]
  · intro j hj
    rw [hsolve]
    rw [List.get?_map, List.get?_range hj]
    rfl
  · intro j hj hrev
    unfold netPrimal
    rw [if_pos hrev]

/-- Witness for C6 at a concrete optimal solver result on the
split-reaction model. -/
theorem c6_witness :
    sampleRes.status = SolStatus.optimal ∧
    (solve reversibleModel sampleRes).f = sampleRes.objective :=
  ⟨rfl, (c6_solve_postcondition reversibleModel sampleRes rfl).2.1⟩

/-- Claim C7:  Bound monotonicity: raising one reaction's upper bound keeps
every previously feasible point feasible, both for the plain FBA linear
program and for the loopless MILP — the feasible regions only relax. -/
theorem c7_ub_monotonicity (m : Model) (j : Nat) (u : ℚ)
    (hj : j < m.reactions.length) (hu : (reactionAt m j).upper_bound ≤ u) :
    (∀ v, lpFeasible m v → lpFeasible (setUb m j u) v) ∧
    (∀ p, looplessFeasible m p → looplessFeasible (setUb m j u) p) := by
  have hstoich : ∀ k met, stoich (reactionAt (setUb m j u) k) met = stoich (reactionAt m k) met := by
    intro k met
    rw [reactionAt_setUb]
    split_ifs with h
    · obtain ⟨rfl, -⟩ := h
      exact stoich_updUb ..
    · rfl
  have hhr : ∀ k, hasReverse (reactionAt (setUb m j u) k) = hasReverse (reactionAt m k) := by
    intro k
    rw [reactionAt_setUb]
    split_ifs with h
    · obtain ⟨rfl, -⟩ := h
      exact hasReverse_updUb ..
    · rfl
  have hfl : ∀ k, fwdLb (reactionAt (setUb m j u) k) = fwdLb (reactionAt m k) := by
    intro k
    rw [reactionAt_setUb]
    split_ifs with h
    · obtain ⟨rfl, -⟩ := h
      exact fwdLb_updUb ..
    · rfl
  have hlb : ∀ k, (reactionAt (setUb m j u) k).lower_bound = (reactionAt m k).lower_bound := by
    intro k
    rw [reactionAt_setUb]
    split_ifs with h
    · obtain ⟨rfl, -⟩ := h
      rfl
    · rfl
  have hbd : ∀ k, (reactionAt (setUb m j u) k).is_boundary = (reactionAt m k).is_boundary := by
    intro k
    rw [reactionAt_setUb]
    split_ifs with h
    · obtain ⟨rfl, -⟩ := h
      rfl
    · rfl
  have hub : ∀ k, (reactionAt m k).upper_bound ≤ (reactionAt (setUb m j u) k).upper_bound := by
    intro k
    rw [reactionAt_setUb]
    split_ifs with h
    · obtain ⟨rfl, -⟩ := h
      exact hu
    · exact le_rfl
  have hM : bigM m ≤ bigM (setUb m j u) := bigM_le_setUb m j hu
  have hnet : ∀ p k, netAt (setUb m j u) p k = netAt m p k := by
    intro p k
    unfold netAt
    rw [hhr k]
  have hcol : ∀ k x, colSum (setUb m j u) k x = colSum m k x := by
    intro k x
    unfold colSum
    rw [mets_setUb]
    congr 1
    apply List.map_congr_left
    intro met hmet
    rw [hstoich]
  constructor
  · rintro v ⟨hbnd, hbal⟩
    constructor
    · intro k hk
      rw [length_setUb] at hk
      obtain ⟨h1, h2⟩ := hbnd k hk
      exact ⟨by rw [hlb k]; exact h1, le_trans h2 (hub k)⟩
    · intro met hm
      rw [mets_setUb] at hm
      rw [length_setUb, idxSum_congr (fun k hk => by rw [hstoich k met])]
      exact hbal met hm
  · rintro p ⟨hc, hbal⟩
    constructor
    · intro k hk
      rw [length_setUb] at hk
      obtain ⟨hbo, hlo⟩ := hc k hk
      constructor
      · unfold boundsOk at hbo ⊢
        refine ⟨⟨?_, ?_⟩, ?_⟩
        · rw [hfl k]
          exact hbo.1.1
        · exact le_trans hbo.1.2 (hub k)
        · intro hrev
          rw [hhr k] at hrev
          rw [hlb k]
          exact hbo.2 hrev
      · unfold loopOk at hlo ⊢
        intro hbf
        rw [hbd k] at hbf
        obtain ⟨⟨hbin, hlink, hcert⟩, hrevpart⟩ := hlo hbf
        refine ⟨⟨hbin, ?_, ?_⟩, ?_⟩
        · rcases hbin with h0 | h1
          · rw [h0, mul_zero] at hlink ⊢
            exact hlink
          · rw [h1, mul_one] at hlink ⊢
            exact le_trans hlink hM
        · unfold specCert at hcert ⊢
          rw [hcol k]
          rcases hbin with h0 | h1
          · rw [h0] at hcert ⊢
            linarith
          · rw [h1] at hcert ⊢
            linarith
        · intro hrev
          rw [hhr k] at hrev
          obtain ⟨hbinr, hlinkr, hcertr⟩ := hrevpart hrev
          refine ⟨hbinr, ?_, ?_⟩
          · rcases hbinr with h0 | h1
            · rw [h0, mul_zero] at hlinkr ⊢
              exact hlinkr
            · rw [h1, mul_one] at hlinkr ⊢
              exact le_trans hlinkr hM
          · unfold specCert at hcertr ⊢
            rw [hcol k]
            rcases hbinr with h0 | h1
            · rw [h0] at hcertr ⊢
              linarith
            · rw [h1] at hcertr ⊢
              linarith
    · intro met hm
      rw [mets_setUb] at hm
      rw [length_setUb, idxSum_congr (fun k hk => by rw [hstoich k met, hnet p k])]
      exact hbal met hm

/-- Witness for C7: raising v1's upper bound from 1000 to 2000 keeps the
toy optimum feasible for both formulations. -/
theorem c7_witness :
    (2 < toyModel.reactions.length ∧ (reactionAt toyModel 2).upper_bound ≤ 2000) ∧
    lpFeasible (setUb toyModel 2 2000) toyOpt.v ∧
    looplessFeasible (setUb toyModel 2 2000) toyOpt := by
  have h := c7_ub_monotonicity toyModel 2 2000 (by norm_num) (by norm_num)
  exact ⟨⟨by norm_num, by norm_num⟩, h.1 toyOpt.v toyOpt_lp, h.2 toyOpt toyOpt_loopless⟩

/-- Claim C8:  Determinism of the builder: the variable list, the big-M
constant and the fallible build result are functions of the reaction
snapshot alone — two models with the same reaction list produce identical
formulations. -/
theorem c8_build_determinism (m₁ m₂ : Model) (h : m₁.reactions = m₂.reactions) :
    buildVars m₁ = buildVars m₂ ∧ bigM m₁ = bigM m₂ ∧ buildE m₁ = buildE m₂ := by
  obtain ⟨mets₁, rs₁⟩ := m₁
  obtain ⟨mets₂, rs₂⟩ := m₂
  dsimp only at h
  subst h
  exact ⟨rfl, rfl, rfl⟩

/-- Witness for C8 on the toy reaction snapshot. -/
theorem c8_witness :
    toyModel.reactions = (Model.mk [] toyModel.reactions).reactions ∧
    buildVars toyModel = buildVars (Model.mk [] toyModel.reactions) :=
  ⟨rfl, (c8_build_determinism toyModel (Model.mk [] toyModel.reactions) rfl).1⟩

/-- Claim C9, counterexample:  The claim identifies "fails with
`DegenerateBoundsError`" with "no strictly positive big-M is available".
In `degenerateModel` (one internal reaction, `lb = −5`, `ub = 0`) every
internal reaction has `upper_bound = 0`, so the builder fails by the
spec's trigger, yet `U = max(ub)` over the transformed internal reactions
is 5 > 0 — a strictly positive big-M is available. -/
theorem c9_counterexample_degenerate :
    (∀ r ∈ degenerateModel.reactions, r.lower_bound ≤ r.upper_bound) ∧
    (∀ r ∈ degenerateModel.reactions, r.is_boundary = false → r.upper_bound = 0) ∧
    buildE degenerateModel = Except.error BuildError.DegenerateBoundsError ∧
    0 < bigM degenerateModel := by
  refine ⟨?_, ?_, rfl, by norm_num⟩
  · intro r hr
    fin_cases hr
    norm_num [rDeg]
  · intro r hr
    fin_cases hr
    intro h
    rfl

/-- Claim C9, amended:  Under the precondition `lb ≤ ub`, the builder fails
with `DegenerateBoundsError` exactly when every internal reaction has
`upper_bound = 0` (the structural check is made at build time, nothing is
delegated to a solver), and in every other case the transformed big-M
`U = max(ub)` is strictly positive.  (The claim's identification of the
failure condition with "no strictly positive big-M available" is dropped:
it fails when an internal reaction has `lb < 0` and `ub = 0`.) -/
theorem c9_amended_degenerate_bounds (m : Model)
    (hpre : ∀ r ∈ m.reactions, r.lower_bound ≤ r.upper_bound) :
    (buildE m = Except.error BuildError.DegenerateBoundsError ↔
      ∀ r ∈ m.reactions, r.is_boundary = false → r.upper_bound = 0) ∧
    ((¬ ∀ r ∈ m.reactions, r.is_boundary = false → r.upper_bound = 0) →
      0 < bigM m) := by
  have hany : m.reactions.any (fun r => decide (r.upper_bound < r.lower_bound)) = false := by
    rw [List.any_eq_false]
    intro r hr
    simp only [decide_eq_true_eq]
    exact not_lt.mpr (hpre r hr)
  have hallIff : ((m.reactions.filter (fun r => !r.is_boundary)).all
      (fun r => decide (r.upper_bound = 0)) = true) ↔
      (∀ r ∈ m.reactions, r.is_boundary = false → r.upper_bound = 0) := by
    rw [List.all_eq_true]
    constructor
    · intro hall r hr hbf
      have hmem : r ∈ m.reactions.filter (fun r => !r.is_boundary) :=
        List.mem_filter.mpr ⟨hr, by simp [hbf]⟩
      simpa using hall r hmem
    · intro hcond r hr
      obtain ⟨hmem, hbf⟩ := List.mem_filter.mp hr
      simp only [Bool.not_eq_eq_eq_not, Bool.not_true] at hbf
      simp [hcond r hmem hbf]
  constructor
  · unfold buildE
    rw [hany]
    simp only [Bool.false_eq_true, if_false]
    by_cases hall : (m.reactions.filter (fun r => !r.is_boundary)).all
        (fun r => decide (r.upper_bound = 0)) = true
    · rw [if_pos hall]
      exact iff_of_true rfl (hallIff.mp hall)
    · rw [if_neg hall]
      constructor
      · intro hcontra
        exact absurd hcontra (by simp)
      · intro hcond
        exact absurd (hallIff.mpr hcond) hall
  · intro hnot
    push_neg at hnot
    obtain ⟨r, hr, hbf, hub⟩ := hnot
    rcases lt_or_gt_of_ne hub with hlt | hgt
    · have hlbneg : r.lower_bound < 0 := lt_of_le_of_lt (hpre r hr) hlt
      have h1 := neg_lb_le_bigM hr hbf hlbneg
      have h2 := hpre r hr
      linarith
    · exact lt_of_lt_of_le hgt (ub_le_bigM hr hbf)

/-- Witness for C9 at the toy model (all bounds valid, some internal
upper bound nonzero, so the build succeeds and the big-M is positive). -/
theorem c9_witness :
    (∀ r ∈ toyModel.reactions, r.lower_bound ≤ r.upper_bound) ∧
    (buildE toyModel = Except.error BuildError.DegenerateBoundsError ↔
      ∀ r ∈ toyModel.reactions, r.is_boundary = false → r.upper_bound = 0) := by
  have hpre : ∀ r ∈ toyModel.reactions, r.lower_bound ≤ r.upper_bound := by
    intro r hr
    fin_cases hr <;> norm_num [EX_A, DM_C, v1, v2, v3]
  exact ⟨hpre, (c9_amended_degenerate_bounds toyModel hpre).1⟩

/-- Claim C10:  For a split (reversible internal) reaction, no feasible
point of the loopless MILP activates both pair indicators: their two
certificate rows demand `Sᵀx ≤ −1` and `−Sᵀx ≤ −1` simultaneously, which
is unsatisfiable; consequently at least one of the forward and reverse
fluxes is zero — the trivial two-cycle is excluded. -/
theorem c10_no_simultaneous_pair (m : Model) (p : MilpPoint) (j : Nat)
    (hj : j < m.reactions.length) (hfeas : looplessFeasible m p)
    (hint : (reactionAt m j).is_boundary = false)
    (hrev : hasReverse (reactionAt m j) = true) :
    ¬(p.ifwd j = 1 ∧ p.irev j = 1) ∧ (p.v j = 0 ∨ p.w j = 0) := by
  obtain ⟨hc, -⟩ := hfeas
  obtain ⟨hbo, hlo⟩ := hc j hj
  obtain ⟨⟨hbf, hlf, hcf⟩, hrest⟩ := hlo hint
  obtain ⟨hbr, hlr, hcr⟩ := hrest hrev
  have hpair : ¬(p.ifwd j = 1 ∧ p.irev j = 1) := by
    rintro ⟨h1, h2⟩
    unfold specCert at hcf hcr
    rw [h1] at hcf
    rw [h2] at hcr
    linarith
  refine ⟨hpair, ?_⟩
  by_contra hcon
  push_neg at hcon
  obtain ⟨hv, hw⟩ := hcon
  have hv0 : 0 ≤ p.v j := by
    have h1 := hbo.1.1
    unfold fwdLb at h1
    rwa [if_pos hrev] at h1
  have hw0 : 0 ≤ p.w j := (hbo.2 hrev).1
  have hvpos : 0 < p.v j := lt_of_le_of_ne hv0 (Ne.symm hv)
  have hwpos : 0 < p.w j := lt_of_le_of_ne hw0 (Ne.symm hw)
  have hif : p.ifwd j = 1 := by
    rcases hbf with h0 | h1
    · rw [h0, mul_zero] at hlf
      linarith
    · exact h1
  have hir : p.irev j = 1 := by
    rcases hbr with h0 | h1
    · rw [h0, mul_zero] at hlr
      linarith
    · exact h1
  exact hpair ⟨hif, hir⟩

lemma zero_loopless_rev : looplessFeasible reversibleModel zeroPoint := by
  constructor
  · intro j hj
    rw [rev_len] at hj
    interval_cases j
    refine ⟨?_, ?_⟩
    · norm_num [boundsOk, fwdLb]
    · intro hbd
      refine ⟨⟨Or.inl rfl, by norm_num, ?_⟩, ?_⟩
      · unfold specCert
        norm_num [colSum]
      · intro hrevp
        refine ⟨Or.inl rfl, by norm_num, ?_⟩
        unfold specCert
        norm_num [colSum]
  · intro met hm
    fin_cases hm
    norm_num [idxSum, List.range_succ, netAt]

/-- Witness for C10 at the all-zero feasible point of the reversible
one-reaction model. -/
theorem c10_witness :
    looplessFeasible reversibleModel zeroPoint ∧
    ¬(zeroPoint.ifwd 0 = 1 ∧ zeroPoint.irev 0 = 1) ∧
    (zeroPoint.v 0 = 0 ∨ zeroPoint.w 0 = 0) := by
  have h := c10_no_simultaneous_pair reversibleModel zeroPoint 0 (by norm_num)
    zero_loopless_rev rfl rfl
  exact ⟨zero_loopless_rev, h.1, h.2⟩

end LooplessFBA
